import Mathlib

/-!
Shallow embedding of the HealthCredX core (ledger, signature service,
verification workflow, credential lifecycle) from `src/blockchain.py`,
`src/crypto_utils.py`, `src/database.py` and `src/app.py`, together with
theorems settling the specification claims.

Python's wall clock (`datetime.now()`) is modelled by passing each
timestamp explicitly; Python dicts are modelled as association lists
(insertion order preserved, as in CPython); in-place dict mutation is
modelled by returning the mutated dict.
-/

/-! ### JSON values and `json.dumps(..., sort_keys=True)`

`Block.calculate_hash` serialises the block with
`json.dumps({...}, sort_keys=True)` (default separators `", "` and
`": "`, `ensure_ascii=True`), then hashes the UTF-8 bytes.  With
`ensure_ascii=True` the output is pure ASCII, so bytes coincide with
code points.  Payload values in this code base are strings, ints and
booleans. -/

inductive JVal where
  | str : String → JVal
  | int : Int → JVal
  | bool : Bool → JVal
deriving DecidableEq, Repr

/-- Hex digits (lower case), as used both by `json.dumps` `\uXXXX`
escapes and by `hashlib`'s `hexdigest`. -/
def hexChar (n : Nat) : Char :=
  if n < 10 then Char.ofNat (48 + n) else Char.ofNat (87 + n % 16)

/-- Four-digit hex, for `\uXXXX` escapes. -/
def hex4 (n : Nat) : List Char :=
  [hexChar (n / 4096 % 16), hexChar (n / 256 % 16), hexChar (n / 16 % 16), hexChar (n % 16)]

/-- Escaping of one character inside a JSON string literal, as in
CPython's `py_encode_basestring_ascii`: `"` and `\` get a backslash,
the control characters 8,9,10,12,13 get their short escapes, every
other character outside 0x20..0x7e becomes `\uXXXX` (a surrogate pair
beyond the BMP). -/
def escChar (c : Char) : List Char :=
  let n := c.toNat
  if c = '"' then ['\\', '"']
  else if c = '\\' then ['\\', '\\']
  else if n = 8 then ['\\', 'b']
  else if n = 9 then ['\\', 't']
  else if n = 10 then ['\\', 'n']
  else if n = 12 then ['\\', 'f']
  else if n = 13 then ['\\', 'r']
  else if 32 ≤ n ∧ n ≤ 126 then [c]
  else if n < 65536 then '\\' :: 'u' :: hex4 n
  else
    let m := n - 65536
    ('\\' :: 'u' :: hex4 (55296 + m / 1024)) ++ ('\\' :: 'u' :: hex4 (56320 + m % 1024))

/-- A JSON string literal: quotes around the escaped characters. -/
def jsonString (s : String) : String :=
  String.mk ('"' :: (s.data.map escChar).flatten ++ ['"'])

/-- Serialisation of one JSON scalar value. -/
def dumpJVal : JVal → String
  | .str s => jsonString s
  | .int i => toString i
  | .bool true => "true"
  | .bool false => "false"

/-- Code-point lexicographic strict order on character lists: Python's
`<` on `str`, used by `sort_keys=True`. -/
def keyLt : List Char → List Char → Bool
  | [], [] => false
  | [], _ :: _ => true
  | _ :: _, [] => false
  | a :: as, b :: bs =>
    if a.toNat < b.toNat then true
    else if b.toNat < a.toNat then false
    else keyLt as bs

/-- Non-strict key order on strings. -/
def strLe (a b : String) : Bool := !(keyLt b.data a.data)

/-- Insert one key-value pair into a list sorted by `strLe`. -/
def insertKV (p : String × JVal) : List (String × JVal) → List (String × JVal)
  | [] => [p]
  | q :: rest => if strLe p.1 q.1 then p :: q :: rest else q :: insertKV p rest

/-- Sort an association list by key (the effect of `sort_keys=True` on
one dict). -/
def sortKV : List (String × JVal) → List (String × JVal)
  | [] => []
  | p :: rest => insertKV p (sortKV rest)

/-- `", "`-joined rendering of sorted key-value pairs. -/
def dumpPairs : List (String × JVal) → String
  | [] => ""
  | [(k, v)] => jsonString k ++ ": " ++ dumpJVal v
  | (k, v) :: rest => jsonString k ++ ": " ++ dumpJVal v ++ ", " ++ dumpPairs rest

/-- `json.dumps` of one flat dict with `sort_keys=True`. -/
def dumpObj (d : List (String × JVal)) : String :=
  "\x7b" ++ dumpPairs (sortKV d) ++ "\x7d"

/-! ### SHA-256 (`hashlib.sha256`)

Bytes are `Nat`s below 256; 32-bit words are `Nat`s reduced mod `2^32`
explicitly. -/

/-- Reduction to a 32-bit word. -/
def wmod (x : Nat) : Nat := x % 4294967296

/-- Rotate a word right by `n` bit positions. -/
def rotr (n x : Nat) : Nat := wmod ((x >>> n) ||| (x <<< (32 - n)))

def bigSigma0 (x : Nat) : Nat := rotr 2 x ^^^ rotr 13 x ^^^ rotr 22 x

def bigSigma1 (x : Nat) : Nat := rotr 6 x ^^^ rotr 11 x ^^^ rotr 25 x

def smallSigma0 (x : Nat) : Nat := rotr 7 x ^^^ rotr 18 x ^^^ (x >>> 3)

def smallSigma1 (x : Nat) : Nat := rotr 17 x ^^^ rotr 19 x ^^^ (x >>> 10)

def chFn (x y z : Nat) : Nat := (x &&& y) ^^^ ((x ^^^ 4294967295) &&& z)

def majFn (x y z : Nat) : Nat := (x &&& y) ^^^ (x &&& z) ^^^ (y &&& z)

/-- The 64 SHA-256 round constants, as decimal `Nat` literals. -/
def sha256K : List Nat :=
  [1116352408, 1899447441, 3049323471, 3921009573, 961987163, 1508970993,
   2453635748, 2870763221, 3624381080, 310598401, 607225278, 1426881987,
   1925078388, 2162078206, 2614888103, 3248222580, 3835390401, 4022224774,
   264347078, 604807628, 770255983, 1249150122, 1555081692, 1996064986,
   2554220882, 2821834349, 2952996808, 3210313671, 3336571891, 3584528711,
   113926993, 338241895, 666307205, 773529912, 1294757372, 1396182291,
   1695183700, 1986661051, 2177026350, 2456956037, 2730485921, 2820302411,
   3259730800, 3345764771, 3516065817, 3600352804, 4094571909, 275423344,
   430227734, 506948616, 659060556, 883997877, 958139571, 1322822218,
   1537002063, 1747873779, 1955562222, 2024104815, 2227730452, 2361852424,
   2428436474, 2756734187, 3204031479, 3329325298]

/-- SHA-256 padding: append `0x80`, zeros to 56 mod 64, then the bit
length as 8 big-endian bytes. -/
def padMsg (m : List Nat) : List Nat :=
  let L := m.length
  let bits := 8 * L
  m ++ 128 :: List.replicate ((119 - L % 64) % 64) 0 ++
    [bits >>> 56 &&& 255, bits >>> 48 &&& 255, bits >>> 40 &&& 255, bits >>> 32 &&& 255,
     bits >>> 24 &&& 255, bits >>> 16 &&& 255, bits >>> 8 &&& 255, bits &&& 255]

/-- Group bytes into big-endian 32-bit words. -/
def toWords : List Nat → List Nat
  | a :: b :: c :: d :: rest => (a * 16777216 + b * 65536 + c * 256 + d) :: toWords rest
  | _ => []

/-- Group words into 16-word blocks. -/
def toBlocks : List Nat → List (List Nat)
  | w0 :: w1 :: w2 :: w3 :: w4 :: w5 :: w6 :: w7 ::
    w8 :: w9 :: w10 :: w11 :: w12 :: w13 :: w14 :: w15 :: rest =>
      [w0, w1, w2, w3, w4, w5, w6, w7, w8, w9, w10, w11, w12, w13, w14, w15] :: toBlocks rest
  | _ => []

/-- Extend the message schedule; the accumulator holds the words most
recent first. -/
def extendSched : Nat → List Nat → List Nat
  | 0, r => r
  | n + 1, r =>
      extendSched n
        (wmod (smallSigma1 (r.getD 1 0) + r.getD 6 0 + smallSigma0 (r.getD 14 0) + r.getD 15 0) :: r)

/-- The eight-word working state. -/
abbrev ShaState : Type := Nat × Nat × Nat × Nat × Nat × Nat × Nat × Nat

/-- The 64 compression rounds over schedule and constants. -/
def rounds : List Nat → List Nat → ShaState → ShaState
  | w :: ws, k :: ks, (a, b, c, d, e, f, g, h) =>
      let t1 := wmod (h + bigSigma1 e + chFn e f g + k + w)
      let t2 := wmod (bigSigma0 a + majFn a b c)
      rounds ws ks (wmod (t1 + t2), a, b, c, wmod (d + t1), e, f, g)
  | _, _, st => st

/-- Process the padded blocks, chaining the eight-word state. -/
def processBlocks : List (List Nat) → ShaState → ShaState
  | [], st => st
  | blk :: rest, (a, b, c, d, e, f, g, h) =>
      let w := (extendSched 48 blk.reverse).reverse
      match rounds w sha256K (a, b, c, d, e, f, g, h) with
      | (a', b', c', d', e', f', g', h') =>
          processBlocks rest (wmod (a + a'), wmod (b + b'), wmod (c + c'), wmod (d + d'),
            wmod (e + e'), wmod (f + f'), wmod (g + g'), wmod (h + h'))

/-- The final SHA-256 state over a byte list, from the standard initial
state. -/
def sha256State (m : List Nat) : ShaState :=
  processBlocks (toBlocks (toWords (padMsg m)))
    (1779033703, 3144134277, 1013904242, 2773480762, 1359893119, 2600822924, 528734635, 1541459225)

/-- One word as eight hex characters. -/
def wordHex (x : Nat) : List Char :=
  [hexChar (x >>> 28 &&& 15), hexChar (x >>> 24 &&& 15), hexChar (x >>> 20 &&& 15),
   hexChar (x >>> 16 &&& 15), hexChar (x >>> 12 &&& 15), hexChar (x >>> 8 &&& 15),
   hexChar (x >>> 4 &&& 15), hexChar (x &&& 15)]

/-- The hex characters of a final state. -/
def stateHex : ShaState → List Char
  | (a, b, c, d, e, f, g, h) =>
      wordHex a ++ wordHex b ++ wordHex c ++ wordHex d ++ wordHex e ++ wordHex f ++
        wordHex g ++ wordHex h

/-- `hashlib.sha256(...).hexdigest()`: 64 lower-case hex characters. -/
def sha256hex (m : List Nat) : String :=
  String.mk (stateHex (sha256State m))

/-- UTF-8 bytes of an ASCII string (`str.encode()`); every string fed
to the hash here is `json.dumps` output with `ensure_ascii=True`, hence
pure ASCII, so bytes and code points coincide. -/
def strBytes (s : String) : List Nat := s.data.map Char.toNat

/-! ### The ledger: `Block` and `Blockchain` (`src/blockchain.py`)

`datetime.now().isoformat()` is passed in as an explicit `timestamp`
string; `self.chain` is the `List Block` threaded through the
operations; `self.chain[-1]` on an empty list raises in Python, which
is modelled by `Option`. -/

structure Block where
  index : Nat
  timestamp : String
  data : List (String × JVal)
  previous_hash : String
  hash : String
deriving DecidableEq, Repr

/-- The string built by `Block.calculate_hash`:
`json.dumps({"index": ..., "timestamp": ..., "data": ...,
"previous_hash": ...}, sort_keys=True)`.  The four top-level keys in
sorted order are `data`, `index`, `previous_hash`, `timestamp`; the
nested payload dict is sorted by `dumpObj`. -/
def blockString (index : Nat) (timestamp : String) (data : List (String × JVal))
    (previous_hash : String) : String :=
  "\x7b\"data\": " ++ dumpObj data ++ ", \"index\": " ++ toString index ++
    ", \"previous_hash\": " ++ jsonString previous_hash ++
    ", \"timestamp\": " ++ jsonString timestamp ++ "\x7d"

/-- `Block.calculate_hash`: SHA-256 hex digest of the canonical block
string, computed from the block's own (current) fields. -/
def Block.calculate_hash (b : Block) : String :=
  sha256hex (strBytes (blockString b.index b.timestamp b.data b.previous_hash))

/-- `Block.__init__`: stores the four fields and sets
`self.hash = self.calculate_hash()`. -/
def Block.make (index : Nat) (timestamp : String) (data : List (String × JVal))
    (previous_hash : String) : Block :=
  { index, timestamp, data, previous_hash,
    hash := sha256hex (strBytes (blockString index timestamp data previous_hash)) }

/-- The genesis payload from `Blockchain.create_genesis_block`. -/
def genesisData : List (String × JVal) :=
  [("type", JVal.str "genesis"), ("message", JVal.str "HealthCredX Blockchain Initialized")]

/-- `Blockchain.__init__` / `create_genesis_block`: the chain holding
only `Block(0, now, genesis_payload, "0")`. -/
def Blockchain.init (ts : String) : List Block :=
  [Block.make 0 ts genesisData "0"]

/-- `Blockchain.get_latest_block`: `self.chain[-1]`. -/
def get_latest_block (c : List Block) : Option Block :=
  c.getLast?

/-- `Blockchain.add_credential`: build the credential payload, append
`Block(latest.index + 1, now, payload, latest.hash)`, return the new
block's hash (here together with the new chain). -/
def add_credential (c : List Block) (ts : String) (user_id : Int) (name skill : String) :
    Option (List Block × String) :=
  match c.getLast? with
  | none => none
  | some latest =>
      let credential_data : List (String × JVal) :=
        [("user_id", JVal.int user_id), ("name", JVal.str name), ("skill", JVal.str skill),
         ("verified", JVal.bool true), ("issuer", JVal.str "HealthCredX Platform")]
      let new_block := Block.make (latest.index + 1) ts credential_data latest.hash
      some (c ++ [new_block], new_block.hash)

/-- CPython dict assignment `d[k] = v`: replace the value of an
existing key in place, otherwise append the new key at the end. -/
def setKey (d : List (String × JVal)) (k : String) (v : JVal) : List (String × JVal) :=
  if d.any (fun p => p.1 == k) then d.map (fun p => if p.1 = k then (k, v) else p)
  else d ++ [(k, v)]

/-- `Blockchain.add_medical_record`: sets `record_data["type"]`,
`record_data["verified"]`, `record_data["issuer"]` on the caller's
dict (in-place mutation, modelled by also returning the mutated dict),
then appends the block and returns its hash. -/
def add_medical_record (c : List Block) (ts : String) (record_data : List (String × JVal)) :
    Option (List Block × List (String × JVal) × String) :=
  match c.getLast? with
  | none => none
  | some latest =>
      let record_data :=
        setKey (setKey (setKey record_data "type" (JVal.str "medical_record"))
          "verified" (JVal.bool true)) "issuer" (JVal.str "HealthCredX Platform")
      let new_block := Block.make (latest.index + 1) ts record_data latest.hash
      some (c ++ [new_block], record_data, new_block.hash)

/-- The body of `Blockchain.is_chain_valid`'s loop from block `i = 1`
on: the previous block is carried along; the hash check comes first,
then the link check, returning false at the first failure. -/
def validFrom : Block → List Block → Bool
  | _, [] => true
  | prev, b :: rest =>
      (b.hash == b.calculate_hash) && (b.previous_hash == prev.hash) && validFrom b rest

/-- `Blockchain.is_chain_valid`: the loop over `range(1, len(chain))`;
an empty or one-block chain is vacuously valid. -/
def is_chain_valid : List Block → Bool
  | [] => true
  | b :: rest => validFrom b rest

/-- Chains produced from `Blockchain.__init__` by any finite sequence
of `add_credential` / `add_medical_record` calls and no external
mutation. -/
inductive Reachable : List Block → Prop
  | init (ts : String) : Reachable (Blockchain.init ts)
  | cred {c c' : List Block} {h ts name skill : String} {uid : Int} :
      Reachable c → add_credential c ts uid name skill = some (c', h) → Reachable c'
  | med {c c' : List Block} {d d' : List (String × JVal)} {ts h : String} :
      Reachable c → add_medical_record c ts d = some (c', d', h) → Reachable c'

/-- `find?`-based lookup in a payload dict (Python `d.get(k)` /
`d[k]`). -/
def lookupKey (d : List (String × JVal)) (k : String) : Option JVal :=
  (d.find? (fun p => p.1 == k)).map Prod.snd

/-! ### Verification workflow (`src/database.py`, `src/app.py`)

Only the columns touched by the organization-review path are carried;
statuses are the strings used in the code. -/

structure Verification where
  status : String
  org_verdict : Option String
  org_comments : Option String
  org_reviewed_by : Option Nat
  org_reviewed_at : Option String
  updated_at : String
deriving DecidableEq, Repr

/-- `db.update_verification_status`: unconditional `UPDATE ... SET
status, updated_at WHERE id`. -/
def update_verification_status (v : Verification) (status now : String) : Verification :=
  { v with status := status, updated_at := now }

/-- `db.update_verification_org_review`: unconditional `UPDATE` of the
org-review columns; `new_status` is `org_approved` for an `approved`
verdict and `org_rejected` otherwise.  The `WHERE` clause filters on
`id` only — the current status is never consulted. -/
def update_verification_org_review (v : Verification) (verdict comments : String)
    (reviewer_id : Nat) (now : String) : Verification :=
  let new_status := if verdict = "approved" then "org_approved" else "org_rejected"
  { v with org_verdict := some verdict, org_comments := some comments,
           org_reviewed_by := some reviewer_id, org_reviewed_at := some now,
           status := new_status, updated_at := now }

/-- `app.org_submit_review`: reject a verdict outside
`{approved, rejected}` with a 400 error, otherwise apply the org review
unconditionally, then move an approved application to `pending_admin`.
No status precondition is checked anywhere on this path. -/
def org_submit_review (v : Verification) (verdict comments : String) (reviewer_id : Nat)
    (now : String) : Except String Verification :=
  if verdict ≠ "approved" ∧ verdict ≠ "rejected" then .error "Invalid verdict"
  else
    let v := update_verification_org_review v verdict comments reviewer_id now
    let v := if verdict = "approved" then update_verification_status v "pending_admin" now else v
    .ok v

/-! ### Credentials (`src/database.py`)

`datetime` values are modelled at day granularity (a day count);
`timedelta(days=k)` is then `+ k`. -/

structure Credential where
  verification_id : Nat
  user_id : Nat
  blockchain_hash : String
  issued_at : Nat
  expires_at : Nat
  status : String
deriving DecidableEq, Repr

/-- `db.create_credential`: inserts the row with
`expires_at = issued_at + timedelta(days=30 * validity_months)` and
status `active`.  `issued_at = datetime.now()` is passed explicitly. -/
def create_credential (verification_id user_id : Nat) (blockchain_hash : String)
    (validity_months : Nat) (issued_at : Nat) : Credential :=
  { verification_id, user_id, blockchain_hash, issued_at,
    expires_at := issued_at + 30 * validity_months, status := "active" }

/-- The `WHERE` predicate of `db.check_expired_credentials`:
`status = 'active' AND expires_at < now`. -/
def credExpiredNow (now : Nat) (c : Credential) : Bool :=
  c.status == "active" && decide (c.expires_at < now)

/-- The effect of the `UPDATE` on one row: flip a matching row to
`expired`, leave any other row unchanged. -/
def flipCred (now : Nat) (c : Credential) : Credential :=
  if credExpiredNow now c then { c with status := "expired" } else c

/-- `db.check_expired_credentials`: `UPDATE credentials SET status =
'expired' WHERE status = 'active' AND expires_at < ?`, returning
`cursor.rowcount` (the number of rows matched) together with the
updated table. -/
def check_expired_credentials (creds : List Credential) (now : Nat) :
    Nat × List Credential :=
  (creds.countP (credExpiredNow now), creds.map (flipCred now))

/-- Days since 0000-03-01 of a Gregorian calendar date (standard civil
calendar conversion); used to relate the fixed 30-day arithmetic of
`create_credential` to real calendar months. -/
def daysFromCivil (y m d : Nat) : Nat :=
  let y := if m ≤ 2 then y - 1 else y
  let era := y / 400
  let yoe := y % 400
  let mp := (m + 9) % 12
  let doy := (153 * mp + 2) / 5 + d - 1
  let doe := yoe * 365 + yoe / 4 - yoe / 100 + doy
  era * 146097 + doe

/-- Modelled from the spec: "`expires_at` (`issued_at` +
`validity_months` months)" — calendar-month addition of `k` months to a
date (the spec's scenario uses day 1, so day clamping does not
arise). -/
def addMonths (y m d k : Nat) : Nat × Nat × Nat :=
  let t := y * 12 + (m - 1) + k
  (t / 12, t % 12 + 1, d)

/-! ### The practitioner visit path (`src/app.py`, POST branch)

The stored key pair (`db.get_user_keys`) is modelled by an optional
private key and the signing call by an explicit function argument;
when no keys exist the code falls back to the placeholder string
`"Simulated Signature"`. -/

/-- `app.practitioner_visit` (POST): builds
`record_data = f"{diagnosis}|{prescription}"`, picks the signature,
and appends the payload
`{appointment_id, diagnosis, prescription, signature, doctor_id}` to
the blockchain; returns the new chain, the payload stored in the
block, the block hash and the signature that is also persisted in the
relational record. -/
def practitioner_visit (appt_id doctor_id : Nat) (diagnosis_text prescription_text : String)
    (keys : Option String) (signFn : String → String → String)
    (chain : List Block) (ts : String) :
    Option (List Block × List (String × JVal) × String × String) :=
  let record_data := diagnosis_text ++ "|" ++ prescription_text
  let signature :=
    match keys with
    | some private_key => signFn private_key record_data
    | none => "Simulated Signature"
  match add_medical_record chain ts
      [("appointment_id", JVal.int appt_id), ("diagnosis", JVal.str diagnosis_text),
       ("prescription", JVal.str prescription_text), ("signature", JVal.str signature),
       ("doctor_id", JVal.int doctor_id)] with
  | none => none
  | some (chain', payload', bh) => some (chain', payload', bh, signature)

/-! ### Signature service (`src/crypto_utils.py`)

The repository code wraps the external `cryptography` library's
RSA-PSS primitives, which are not part of this repository. -/

/-- A final state combined into one 256-bit number. -/
def stateNat : ShaState → Nat
  | (a, b, c, d, e, f, g, h) =>
      ((((((a * 4294967296 + b) * 4294967296 + c) * 4294967296 + d) * 4294967296 + e) *
        4294967296 + f) * 4294967296 + g) * 4294967296 + h

/-- The eight SHA-256 state words combined into one 256-bit number. -/
def sha256Nat (m : List Nat) : Nat :=
  stateNat (sha256State m)

/-- Modelled from the spec: the message hash of the PSS scheme,
"PSS-style padding over a 256-bit hash of the message"; the scheme is
parameterised by the hash width `hBits` (the library instantiates
256, at which the reduction is the identity, since
`sha256Nat m < 2 ^ 256`). -/
def mHash (hBits : Nat) (m : List Nat) : Nat := sha256Nat m % 2 ^ hBits

/-- Modelled from the spec: a valid RSA key pair as produced by the
library's `generate_key_pair` — two distinct primes and exponents
inverse to each other modulo `(p-1)*(q-1)`. -/
def rsaKeyValid (p q e d : Nat) : Prop :=
  p.Prime ∧ q.Prime ∧ p ≠ q ∧ 1 ≤ d ∧ e * d % ((p - 1) * (q - 1)) = 1

/-- Modelled from the spec: the PSS encoded message — the message hash
and the random salt packed into one number below the modulus. -/
def pssEncode (hBits sBits : Nat) (m : List Nat) (salt : Nat) : Nat :=
  mHash hBits m * 2 ^ sBits + salt % 2 ^ sBits

/-- `sign_data` (over the library's `private_key.sign`): the encoded
message taken to the private exponent modulo `n = p * q`; the salt
makes the signature probabilistic. -/
def sign_data (hBits sBits p q d : Nat) (data : List Nat) (salt : Nat) : Nat :=
  pssEncode hBits sBits data salt ^ d % (p * q)

/-- `verify_signature` (over the library's `public_key.verify`):
recover the encoded message with the public exponent, extract the
salt, recompute the message hash and compare; any failure yields
`false` rather than an exception. -/
def verify_signature (hBits sBits n e : Nat) (data : List Nat) (sig : Nat) : Bool :=
  let em := sig ^ e % n
  em == mHash hBits data * 2 ^ sBits + em % 2 ^ sBits

set_option maxRecDepth 8000

/-! ### Chain lemmas -/

theorem Block.make_hash (i : Nat) (t : String) (d : List (String × JVal)) (p : String) :
    (Block.make i t d p).hash = (Block.make i t d p).calculate_hash := rfl

theorem validFrom_append (rest : List Block) (prev nb last : Block)
    (hv : validFrom prev rest = true)
    (hl : (prev :: rest).getLast? = some last)
    (hprev : nb.previous_hash = last.hash)
    (hhash : nb.hash = nb.calculate_hash) :
    validFrom prev (rest ++ [nb]) = true := by
  induction rest generalizing prev with
  | nil =>
      simp only [List.getLast?_singleton, Option.some.injEq] at hl
      subst hl
      simp [validFrom, hprev, hhash]
  | cons x xs ih =>
      simp only [validFrom, Bool.and_eq_true, beq_iff_eq] at hv
      obtain ⟨⟨h1, h2⟩, h3⟩ := hv
      rw [List.getLast?_cons_cons] at hl
      simp only [List.cons_append, validFrom, Bool.and_eq_true, beq_iff_eq]
      exact ⟨⟨h1, h2⟩, ih x h3 hl⟩

theorem is_chain_valid_append (c : List Block) (nb last : Block)
    (hv : is_chain_valid c = true) (hl : c.getLast? = some last)
    (hprev : nb.previous_hash = last.hash) (hhash : nb.hash = nb.calculate_hash) :
    is_chain_valid (c ++ [nb]) = true := by
  cases c with
  | nil => simp at hl
  | cons b rest =>
      simpa [is_chain_valid] using validFrom_append rest b nb last hv hl hprev hhash

/-- C4: every chain obtained from the genesis-only chain by a finite
sequence of `add_credential` / `add_medical_record` appends, with no
external mutation, satisfies `is_chain_valid = true`. -/
theorem append_only_chain_valid (c : List Block) (h : Reachable c) :
    is_chain_valid c = true := by
  induction h with
  | init ts => rfl
  | cred hr hadd ih =>
      rename_i c c' hsh ts name skill uid
      unfold add_credential at hadd
      cases hc : c.getLast? with
      | none => rw [hc] at hadd; exact absurd hadd (by simp)
      | some latest =>
          rw [hc] at hadd
          simp only [Option.some.injEq, Prod.mk.injEq] at hadd
          obtain ⟨hc', _⟩ := hadd
          subst hc'
          exact is_chain_valid_append c _ latest ih hc rfl rfl
  | med hr hadd ih =>
      rename_i c c' d d' ts hsh
      unfold add_medical_record at hadd
      cases hc : c.getLast? with
      | none => rw [hc] at hadd; exact absurd hadd (by simp)
      | some latest =>
          rw [hc] at hadd
          simp only [Option.some.injEq, Prod.mk.injEq] at hadd
          obtain ⟨hc', _⟩ := hadd
          subst hc'
          exact is_chain_valid_append c _ latest ih hc rfl rfl

/-- C4 witness: a concrete two-block chain built by one
`add_credential` append validates. -/
theorem append_only_chain_valid_witness :
    is_chain_valid (Blockchain.init "t0" ++
      [Block.make 1 "t1"
        [("user_id", JVal.int 7), ("name", JVal.str "Alice"), ("skill", JVal.str "Cardiologist"),
         ("verified", JVal.bool true), ("issuer", JVal.str "HealthCredX Platform")]
        (Block.make 0 "t0" genesisData "0").hash]) = true :=
  append_only_chain_valid _
    (Reachable.cred (Reachable.init "t0")
      (show add_credential (Blockchain.init "t0") "t1" 7 "Alice" "Cardiologist" = _ from rfl))

theorem validFrom_false_of_mismatch (rest : List Block) (prev : Block) (j : Nat)
    (hj : j < rest.length)
    (hmis : (rest.get ⟨j, hj⟩).hash ≠ (rest.get ⟨j, hj⟩).calculate_hash ∨
      (rest.get ⟨j, hj⟩).previous_hash ≠
        ((prev :: rest).get ⟨j, Nat.lt_succ_of_lt hj⟩).hash) :
    validFrom prev rest = false := by
  induction rest generalizing prev j with
  | nil => simp at hj
  | cons b rest' ih =>
      cases j with
      | zero =>
          simp only [List.get] at hmis
          rcases hmis with h | h <;>
            simp [validFrom, beq_eq_false_iff_ne, h]
      | succ k =>
          have hk : k < rest'.length := by simpa using hj
          have : validFrom b rest' = false := by
            apply ih b k hk
            simpa only [List.get] using hmis
          simp [validFrom, this]

/-- C1 (amended): for every chain and every block at index `i ≥ 1`, if
the block's stored hash differs from the digest recomputed from its own
fields, or its `previous_hash` differs from the prior block's stored
hash, then `is_chain_valid` returns false.  (Mismatches confined to the
genesis block's own recomputed digest are not covered: the validation
loop starts at index 1 and never recomputes the genesis hash.) -/
theorem tampered_block_invalidates (c : List Block) (i : Nat) (hi : i < c.length)
    (h1 : 1 ≤ i)
    (hmis : (c.get ⟨i, hi⟩).hash ≠ (c.get ⟨i, hi⟩).calculate_hash ∨
      (c.get ⟨i, hi⟩).previous_hash ≠
        (c.get ⟨i - 1, Nat.lt_of_le_of_lt (Nat.sub_le i 1) hi⟩).hash) :
    is_chain_valid c = false := by
  cases c with
  | nil => simp at hi
  | cons b rest =>
      obtain ⟨j, rfl⟩ : ∃ j, i = j + 1 := ⟨i - 1, by omega⟩
      have hj : j < rest.length := by simpa using hi
      have : validFrom b rest = false := by
        apply validFrom_false_of_mismatch rest b j hj
        simpa only [List.get] using hmis
      simpa [is_chain_valid] using this

/-- C1 witness: a two-block chain whose second block's `previous_hash`
does not match the first block's stored hash fails validation. -/
theorem tampered_block_invalidates_witness :
    is_chain_valid
      [{ index := 0, timestamp := "t", data := [], previous_hash := "0", hash := "h0" },
       { index := 1, timestamp := "t", data := [], previous_hash := "WRONG", hash := "h1" }] = false :=
  tampered_block_invalidates _ 1 (by decide) (by decide) (Or.inr (by decide))

/-- The untampered genesis block of the counterexample chain. -/
def gBlock0 : Block := Block.make 0 "t0" genesisData "0"

/-- The genesis block after its payload was mutated in place; its
stored `hash` field is unchanged. -/
def gBlock0Tampered : Block :=
  { gBlock0 with data := [("type", JVal.str "genesis"), ("message", JVal.str "tampered")] }

/-- The credential block appended before the mutation. -/
def credBlock1 : Block :=
  Block.make 1 "t1"
    [("user_id", JVal.int 7), ("name", JVal.str "Alice"), ("skill", JVal.str "Cardiologist"),
     ("verified", JVal.bool true), ("issuer", JVal.str "HealthCredX Platform")]
    gBlock0.hash

/-- C1 counterexample: a chain built by `add_credential` whose genesis
payload is then mutated (so the genesis block's stored hash no longer
matches the digest recomputed from its own fields) still passes
`is_chain_valid`, because the loop starting at index 1 never recomputes
the genesis block's own hash. -/
theorem genesis_payload_tamper_undetected :
    add_credential (Blockchain.init "t0") "t1" 7 "Alice" "Cardiologist"
        = some ([gBlock0, credBlock1], credBlock1.hash)
    ∧ gBlock0Tampered.data ≠ gBlock0.data
    ∧ gBlock0Tampered.hash = gBlock0.hash
    ∧ gBlock0Tampered.hash ≠ gBlock0Tampered.calculate_hash
    ∧ is_chain_valid [gBlock0Tampered, credBlock1] = true :=
  ⟨rfl, by decide, rfl, by decide, by decide⟩


/-! ### C2: organization verdict on an application past `pending_org` -/

/-- An application already past `pending_org`: the org already approved
and the admin stage is pending. -/
def c2Verification : Verification :=
  { status := "pending_admin", org_verdict := some "approved", org_comments := some "looks fine",
    org_reviewed_by := some 5, org_reviewed_at := some "2024-01-02", updated_at := "2024-01-03" }

/-- The application after the org verdict is re-invoked: the review
columns are overwritten and the status moves back to `org_rejected`. -/
def c2After : Verification :=
  { status := "org_rejected", org_verdict := some "rejected",
    org_comments := some "second thoughts", org_reviewed_by := some 9,
    org_reviewed_at := some "2024-01-04", updated_at := "2024-01-04" }

/-- C2: re-invoking the organization verdict on an application whose
status is `pending_admin` (already past `pending_org`) does not fail —
the code re-applies the update, overwrites the org review columns and
moves the status back to `org_rejected`, modifying the application. -/
theorem org_review_reapplied_after_pending_org :
    org_submit_review c2Verification "rejected" "second thoughts" 9 "2024-01-04"
        = Except.ok c2After
    ∧ c2After ≠ c2Verification
    ∧ c2After.status = "org_rejected" := by
  refine ⟨rfl, by decide, rfl⟩

/-! ### C7: credential expiry arithmetic -/

/-- C7 counterexample: a credential issued on 2024-01-01 with
`validity_months = 12` expires 360 days later (2024-12-26), not at
`issued_at + 12` calendar months (2025-01-01, 366 days later across the
2024 leap year). -/
theorem thirty_day_month_counterexample :
    (create_credential 1 2 "deadbeef" 12 (daysFromCivil 2024 1 1)).expires_at
        = daysFromCivil 2024 12 26
    ∧ addMonths 2024 1 1 12 = (2025, 1, 1)
    ∧ (create_credential 1 2 "deadbeef" 12 (daysFromCivil 2024 1 1)).expires_at
        ≠ daysFromCivil 2025 1 1 := by
  refine ⟨by decide, by decide, by decide⟩

/-- C7 (amended): `create_credential` sets
`expires_at = issued_at + 30 * validity_months` days — a fixed 30-day
month, which coincides with calendar-month addition only when the
calendar span happens to be exactly `30 * validity_months` days. -/
theorem expires_at_thirty_day_months (vid uid : Nat) (bh : String) (m issued : Nat) :
    (create_credential vid uid bh m issued).expires_at = issued + 30 * m
    ∧ (create_credential vid uid bh m issued).issued_at = issued
    ∧ (create_credential vid uid bh m issued).status = "active" :=
  ⟨rfl, rfl, rfl⟩

/-! ### C9: the expiry sweep -/

theorem credExpiredNow_iff (now : Nat) (c : Credential) :
    credExpiredNow now c = true ↔ c.status = "active" ∧ c.expires_at < now := by
  simp [credExpiredNow]

theorem credExpiredNow_flipCred (now : Nat) (c : Credential) :
    credExpiredNow now (flipCred now c) = false := by
  unfold flipCred
  cases h : credExpiredNow now c with
  | false => simpa using h
  | true =>
      simp only [if_true]
      simp [credExpiredNow]

theorem flipCred_idem (now : Nat) (c : Credential) :
    flipCred now (flipCred now c) = flipCred now c := by
  have hy : credExpiredNow now (flipCred now c) = false := credExpiredNow_flipCred now c
  generalize flipCred now c = y at hy ⊢
  unfold flipCred
  rw [hy]
  simp

/-- Running the sweep again on its own output at the same instant
transitions no further credentials and reports zero. -/
theorem sweep_again_reports_zero (creds : List Credential) (now : Nat) :
    check_expired_credentials (check_expired_credentials creds now).2 now
      = (0, (check_expired_credentials creds now).2) := by
  unfold check_expired_credentials
  refine Prod.ext ?_ ?_
  · simp only [List.countP_map]
    rw [List.countP_eq_zero]
    intro c _
    simpa using credExpiredNow_flipCred now c
  · simp only [List.map_map]
    exact List.map_congr_left (fun c _ => flipCred_idem now c)

/-- C9: `check_expired_credentials` flips exactly the credentials with
status `active` and `expires_at` earlier than the current time to
`expired` (all other rows come back unchanged), returns their count,
and is idempotent: a second run at the same instant flips nothing and
reports zero. -/
theorem sweep_expired_flips_exactly_and_idempotent (creds : List Credential) (now : Nat) :
    ((check_expired_credentials creds now).1
        = (creds.filter (fun c => c.status == "active" && decide (c.expires_at < now))).length)
    ∧ (∀ i, ∀ hi : i < creds.length,
        ∃ hi' : i < (check_expired_credentials creds now).2.length,
          ((creds.get ⟨i, hi⟩).status = "active" → (creds.get ⟨i, hi⟩).expires_at < now →
            (check_expired_credentials creds now).2.get ⟨i, hi'⟩
              = { creds.get ⟨i, hi⟩ with status := "expired" })
          ∧ (¬((creds.get ⟨i, hi⟩).status = "active" ∧ (creds.get ⟨i, hi⟩).expires_at < now) →
            (check_expired_credentials creds now).2.get ⟨i, hi'⟩ = creds.get ⟨i, hi⟩))
    ∧ check_expired_credentials (check_expired_credentials creds now).2 now
        = (0, (check_expired_credentials creds now).2) :=
by
  refine ⟨List.countP_eq_length_filter _ _, ?_, sweep_again_reports_zero creds now⟩
  intro i hi
  have hi' : i < (check_expired_credentials creds now).2.length := by
    simpa [check_expired_credentials] using hi
  refine ⟨hi', ?_, ?_⟩
  · intro hact hexp
    have hget : (check_expired_credentials creds now).2.get ⟨i, hi'⟩
        = flipCred now (creds.get ⟨i, hi⟩) := by
      simp [check_expired_credentials, List.get_eq_getElem, List.getElem_map]
    rw [hget, flipCred, if_pos ((credExpiredNow_iff now _).mpr ⟨hact, hexp⟩)]
  · intro hnot
    have hget : (check_expired_credentials creds now).2.get ⟨i, hi'⟩
        = flipCred now (creds.get ⟨i, hi⟩) := by
      simp [check_expired_credentials, List.get_eq_getElem, List.getElem_map]
    have hfalse : ¬ credExpiredNow now (creds.get ⟨i, hi⟩) = true := by
      rw [credExpiredNow_iff]; exact hnot
    rw [hget, flipCred, if_neg hfalse]

/-- C9 witness: one expired and one live credential; the sweep flips
the expired one and leaves the live one in place. -/
theorem sweep_expired_witness :
    ∃ hi' : 0 < (check_expired_credentials
        [create_credential 1 2 "aa" 12 0, create_credential 3 4 "bb" 12 200] 100).2.length,
      (((create_credential 1 2 "aa" 12 0).status = "active" →
        (create_credential 1 2 "aa" 12 0).expires_at < 100 →
          (check_expired_credentials
            [create_credential 1 2 "aa" 12 0, create_credential 3 4 "bb" 12 200] 100).2.get ⟨0, hi'⟩
            = { create_credential 1 2 "aa" 12 0 with status := "expired" })
        ∧ (¬((create_credential 1 2 "aa" 12 0).status = "active"
              ∧ (create_credential 1 2 "aa" 12 0).expires_at < 100) →
          (check_expired_credentials
            [create_credential 1 2 "aa" 12 0, create_credential 3 4 "bb" 12 200] 100).2.get ⟨0, hi'⟩
            = create_credential 1 2 "aa" 12 0)) :=
  (sweep_expired_flips_exactly_and_idempotent
    [create_credential 1 2 "aa" 12 0, create_credential 3 4 "bb" 12 200] 100).2.1 0 (by decide)

/-! ### Dict update lemmas (for C8 and C10) -/

theorem find_replaced (k : String) (v : JVal) :
    ∀ d : List (String × JVal), d.any (fun p => p.1 == k) = true →
      (d.map (fun p => if p.1 = k then (k, v) else p)).find? (fun p => p.1 == k) = some (k, v)
  | [], h => by simp at h
  | q :: rest, h => by
      by_cases hq : q.1 = k
      · rw [List.map_cons, if_pos hq, List.find?_cons_of_pos _ (by simp)]
      · rw [List.map_cons, if_neg hq, List.find?_cons_of_neg _ (by simpa using hq)]
        exact find_replaced k v rest (by simpa [List.any_cons, hq] using h)

theorem find_untouched (k k' : String) (v : JVal) (h : k' ≠ k) :
    ∀ d : List (String × JVal),
      (d.map (fun p => if p.1 = k then (k, v) else p)).find? (fun p => p.1 == k')
        = d.find? (fun p => p.1 == k')
  | [] => rfl
  | q :: rest => by
      by_cases hq : q.1 = k
      · rw [List.map_cons, if_pos hq,
          List.find?_cons_of_neg _ (by simpa using fun hk => h hk.symm),
          List.find?_cons_of_neg _ (by simp only [beq_iff_eq, hq]; exact fun hk => h hk.symm)]
        exact find_untouched k k' v h rest
      · by_cases hq' : q.1 = k'
        · rw [List.map_cons, if_neg hq, List.find?_cons_of_pos _ (by simpa using hq'),
            List.find?_cons_of_pos _ (by simpa using hq')]
        · rw [List.map_cons, if_neg hq, List.find?_cons_of_neg _ (by simpa using hq'),
            List.find?_cons_of_neg _ (by simpa using hq')]
          exact find_untouched k k' v h rest

theorem lookupKey_setKey (d : List (String × JVal)) (k : String) (v : JVal) :
    lookupKey (setKey d k v) k = some v := by
  unfold setKey lookupKey
  by_cases h : d.any (fun p => p.1 == k) = true
  · rw [if_pos h, find_replaced k v d h]
    rfl
  · rw [if_neg h]
    have hnone : d.find? (fun p => p.1 == k) = none := by
      rw [List.find?_eq_none]
      intro p hp
      simp only [beq_iff_eq]
      intro hk
      exact h (List.any_eq_true.mpr ⟨p, hp, by simp [hk]⟩)
    rw [List.find?_append, hnone]
    simp [List.find?]

theorem lookupKey_setKey_ne (d : List (String × JVal)) (k k' : String) (v : JVal)
    (h : k' ≠ k) : lookupKey (setKey d k v) k' = lookupKey d k' := by
  unfold setKey lookupKey
  by_cases hany : d.any (fun p => p.1 == k) = true
  · rw [if_pos hany, find_untouched k k' v h d]
  · rw [if_neg hany, List.find?_append]
    cases hfind : d.find? (fun p => p.1 == k') with
    | some p => simp
    | none =>
        rw [List.find?_cons_of_neg _ (by simpa using fun hk => h hk.symm)]
        simp [List.find?]

/-! ### C10: `add_medical_record` overwrites the caller's payload -/

/-- C10: whenever `add_medical_record` succeeds, the caller's dict (the
returned, in-place-mutated `record_data`) has its `type`, `verified`
and `issuer` keys overwritten, so the stored block's payload carries
`verified = true` and `issuer = "HealthCredX Platform"` regardless of
the input values. -/
theorem medical_record_payload_overwritten (c : List Block) (ts : String)
    (d : List (String × JVal)) (c' : List Block) (d' : List (String × JVal)) (h : String)
    (hadd : add_medical_record c ts d = some (c', d', h)) :
    d' = setKey (setKey (setKey d "type" (JVal.str "medical_record"))
        "verified" (JVal.bool true)) "issuer" (JVal.str "HealthCredX Platform")
    ∧ lookupKey d' "type" = some (JVal.str "medical_record")
    ∧ lookupKey d' "verified" = some (JVal.bool true)
    ∧ lookupKey d' "issuer" = some (JVal.str "HealthCredX Platform")
    ∧ ∃ b, c' = c ++ [b] ∧ b.data = d' ∧ h = b.hash := by
  unfold add_medical_record at hadd
  cases hc : c.getLast? with
  | none => rw [hc] at hadd; exact absurd hadd (by simp)
  | some latest =>
      rw [hc] at hadd
      simp only [Option.some.injEq, Prod.mk.injEq] at hadd
      obtain ⟨hc', hd', hh⟩ := hadd
      subst hd'
      refine ⟨rfl, ?_, ?_, lookupKey_setKey _ _ _, ⟨_, hc'.symm, rfl, hh.symm⟩⟩
      · rw [lookupKey_setKey_ne _ _ _ _ (by decide), lookupKey_setKey_ne _ _ _ _ (by decide)]
        exact lookupKey_setKey _ _ _
      · rw [lookupKey_setKey_ne _ _ _ _ (by decide)]
        exact lookupKey_setKey _ _ _

/-- A caller payload that already carries contradicting `verified` /
`issuer` values and the placeholder signature. -/
def w10D : List (String × JVal) :=
  [("signature", JVal.str "Simulated Signature"), ("verified", JVal.bool false),
   ("issuer", JVal.str "Mallory")]

/-- The caller's dict after the call. -/
def w10After : List (String × JVal) :=
  setKey (setKey (setKey w10D "type" (JVal.str "medical_record"))
    "verified" (JVal.bool true)) "issuer" (JVal.str "HealthCredX Platform")

/-- The block appended for that payload. -/
def w10Block : Block :=
  Block.make 1 "t1" w10After (Block.make 0 "t0" genesisData "0").hash

/-- C10 witness: a concrete record whose signature field is the
placeholder `"Simulated Signature"` and whose `verified`/`issuer`
entries are overwritten. -/
theorem medical_record_payload_overwritten_witness :
    w10After = setKey (setKey (setKey w10D "type" (JVal.str "medical_record"))
        "verified" (JVal.bool true)) "issuer" (JVal.str "HealthCredX Platform")
    ∧ lookupKey w10After "type" = some (JVal.str "medical_record")
    ∧ lookupKey w10After "verified" = some (JVal.bool true)
    ∧ lookupKey w10After "issuer" = some (JVal.str "HealthCredX Platform")
    ∧ ∃ b, Blockchain.init "t0" ++ [w10Block] = Blockchain.init "t0" ++ [b] ∧ b.data = w10After
        ∧ w10Block.hash = b.hash :=
  medical_record_payload_overwritten (Blockchain.init "t0") "t1" w10D
    (Blockchain.init "t0" ++ [w10Block]) w10After w10Block.hash rfl

/-! ### C8: the clinical-record payload stored on the ledger -/

/-- The ledger payload the code stores for a visit by an author without
a stored key pair. -/
def c8Payload : List (String × JVal) :=
  setKey (setKey (setKey
    [("appointment_id", JVal.int 1), ("diagnosis", JVal.str "Influenza A"),
     ("prescription", JVal.str "Oseltamivir 75mg"),
     ("signature", JVal.str "Simulated Signature"), ("doctor_id", JVal.int 2)]
    "type" (JVal.str "medical_record")) "verified" (JVal.bool true))
    "issuer" (JVal.str "HealthCredX Platform")

/-- C8: at a concrete visit the appended ledger block's payload carries
the full `diagnosis` and `prescription` clinical text and the
`signature` value itself, and holds no `content_digest` or
`signature_present` key — the opposite of the claimed digest-plus-flag
payload. -/
theorem clinical_payload_contains_plaintext_and_signature :
    (∃ ch bh, practitioner_visit 1 2 "Influenza A" "Oseltamivir 75mg" none (fun _ _ => "")
        (Blockchain.init "t0") "t1" = some (ch, c8Payload, bh, "Simulated Signature"))
    ∧ lookupKey c8Payload "diagnosis" = some (JVal.str "Influenza A")
    ∧ lookupKey c8Payload "prescription" = some (JVal.str "Oseltamivir 75mg")
    ∧ lookupKey c8Payload "signature" = some (JVal.str "Simulated Signature")
    ∧ lookupKey c8Payload "content_digest" = none
    ∧ lookupKey c8Payload "signature_present" = none := by
  exact ⟨⟨_, _, rfl⟩, by decide, by decide, by decide, by decide, by decide⟩

/-! ### C5: block structure and the canonical key-sorted digest -/

theorem keyLt_irrefl : ∀ l : List Char, keyLt l l = false
  | [] => rfl
  | a :: as => by simp [keyLt, keyLt_irrefl as]

theorem keyLt_trans : ∀ a b c : List Char, keyLt a b = true → keyLt b c = true →
    keyLt a c = true
  | [], [], _, h1, _ => by simp [keyLt] at h1
  | [], _ :: _, [], _, h2 => by simp [keyLt] at h2
  | [], _ :: _, _ :: _, _, _ => by simp [keyLt]
  | _ :: _, [], _, h1, _ => by simp [keyLt] at h1
  | _ :: _, _ :: _, [], _, h2 => by simp [keyLt] at h2
  | a :: as, b :: bs, c :: cs, h1, h2 => by
      simp only [keyLt] at h1 h2 ⊢
      rcases Nat.lt_trichotomy a.toNat b.toNat with hab | hab | hab
      · rcases Nat.lt_trichotomy b.toNat c.toNat with hbc | hbc | hbc
        · simp [Nat.lt_trans hab hbc]
        · simp [hbc ▸ hab]
        · rw [if_neg (by omega), if_pos hbc] at h2
          exact absurd h2 (by simp)
      · rcases Nat.lt_trichotomy b.toNat c.toNat with hbc | hbc | hbc
        · simp [show a.toNat < c.toNat by omega]
        · rw [if_neg (by omega), if_neg (by omega)] at h1
          rw [if_neg (by omega), if_neg (by omega)] at h2
          rw [if_neg (by omega), if_neg (by omega)]
          exact keyLt_trans as bs cs h1 h2
        · rw [if_neg (by omega), if_pos hbc] at h2
          exact absurd h2 (by simp)
      · rw [if_neg (by omega), if_pos hab] at h1
        exact absurd h1 (by simp)

theorem keyLt_both_false_eq : ∀ a b : List Char, keyLt a b = false → keyLt b a = false →
    a = b
  | [], [], _, _ => rfl
  | [], _ :: _, h1, _ => by simp [keyLt] at h1
  | _ :: _, [], _, h2 => by simp [keyLt] at h2
  | a :: as, b :: bs, h1, h2 => by
      simp only [keyLt] at h1 h2
      have hab : ¬ a.toNat < b.toNat := by
        intro h
        rw [if_pos h] at h1
        exact absurd h1 (by simp)
      have hba : ¬ b.toNat < a.toNat := by
        intro h
        rw [if_pos h] at h2
        exact absurd h2 (by simp)
      rw [if_neg hab, if_neg hba] at h1
      rw [if_neg hba, if_neg hab] at h2
      have hc : a = b := by
        have h0 := congrArg Char.ofNat (show a.toNat = b.toNat by omega)
        rwa [Char.ofNat_toNat, Char.ofNat_toNat] at h0
      rw [hc, keyLt_both_false_eq as bs h1 h2]

theorem strLe_trans {a b c : String} (h1 : strLe a b = true) (h2 : strLe b c = true) :
    strLe a c = true := by
  unfold strLe at h1 h2 ⊢
  simp only [Bool.not_eq_true'] at h1 h2 ⊢
  by_contra hca
  rw [Bool.not_eq_false] at hca
  by_cases hab : keyLt a.data b.data = true
  · exact absurd (keyLt_trans _ _ _ hca hab) (by simp [h2])
  · have hd : a.data = b.data :=
      keyLt_both_false_eq _ _ (by simpa using hab) h1
    rw [hd] at hca
    exact absurd hca (by simp [h2])

theorem strLe_total (a b : String) : strLe a b = true ∨ strLe b a = true := by
  unfold strLe
  by_cases h : keyLt b.data a.data = true
  · right
    have hx : keyLt a.data b.data = false := by
      by_contra hy
      rw [Bool.not_eq_false] at hy
      have := keyLt_trans _ _ _ h hy
      rw [keyLt_irrefl] at this
      exact absurd this (by simp)
    simp [hx]
  · left
    rw [Bool.not_eq_true] at h
    simp [h]

theorem strLe_antisymm (a b : String) (h1 : strLe a b = true) (h2 : strLe b a = true) :
    a = b := by
  unfold strLe at h1 h2
  simp only [Bool.not_eq_true'] at h1 h2
  exact congrArg String.mk (keyLt_both_false_eq a.data b.data h2 h1)

theorem insertKV_perm (p : String × JVal) : ∀ l, List.Perm (insertKV p l) (p :: l)
  | [] => List.Perm.refl _
  | q :: rest => by
      unfold insertKV
      split
      · exact List.Perm.refl _
      · exact ((insertKV_perm p rest).cons q).trans (List.Perm.swap p q rest)

theorem sortKV_perm : ∀ l, List.Perm (sortKV l) l
  | [] => List.Perm.refl _
  | p :: rest => (insertKV_perm p (sortKV rest)).trans ((sortKV_perm rest).cons p)

theorem mem_insertKV {x p : String × JVal} {l : List (String × JVal)}
    (hx : x ∈ insertKV p l) : x = p ∨ x ∈ l := by
  have hm := (insertKV_perm p l).mem_iff.mp hx
  simpa using hm

theorem insertKV_pairwise (p : String × JVal) (l : List (String × JVal))
    (hl : l.Pairwise (fun x y => strLe x.1 y.1 = true)) :
    (insertKV p l).Pairwise (fun x y => strLe x.1 y.1 = true) := by
  induction l with
  | nil => simp [insertKV]
  | cons q rest ih =>
      rw [List.pairwise_cons] at hl
      obtain ⟨hq, hrest⟩ := hl
      unfold insertKV
      by_cases hle : strLe p.1 q.1 = true
      · rw [if_pos hle]
        refine List.Pairwise.cons ?_ (List.Pairwise.cons hq hrest)
        intro x hx
        rcases List.mem_cons.mp hx with rfl | hx
        · exact hle
        · exact strLe_trans hle (hq x hx)
      · rw [if_neg hle]
        refine List.Pairwise.cons ?_ (ih hrest)
        intro x hx
        rcases mem_insertKV hx with hxp | hx
        · rw [hxp]
          rcases strLe_total p.1 q.1 with h | h
          · exact absurd h hle
          · exact h
        · exact hq x hx

theorem sortKV_pairwise : ∀ l, (sortKV l).Pairwise (fun x y => strLe x.1 y.1 = true)
  | [] => List.Pairwise.nil
  | p :: rest => insertKV_pairwise p (sortKV rest) (sortKV_pairwise rest)

/-- The strict key order used to identify two sorted renderings. -/
def keyStrict (x y : String × JVal) : Prop := strLe x.1 y.1 = true ∧ x.1 ≠ y.1

instance : IsAntisymm (String × JVal) keyStrict :=
  ⟨fun _ _ hab hba => absurd (strLe_antisymm _ _ hab.1 hba.1) hab.2⟩

theorem sortKV_sorted_strict (d : List (String × JVal)) (hnd : (d.map Prod.fst).Nodup) :
    List.Sorted keyStrict (sortKV d) := by
  have hnd' : ((sortKV d).map Prod.fst).Nodup :=
    (((sortKV_perm d).map Prod.fst).nodup_iff).mpr hnd
  have hne : (sortKV d).Pairwise (fun x y => x.1 ≠ y.1) := List.pairwise_map.mp hnd'
  exact (sortKV_pairwise d).and hne

theorem sortKV_eq_of_perm (d1 d2 : List (String × JVal)) (hp : d1.Perm d2)
    (hnd : (d1.map Prod.fst).Nodup) : sortKV d1 = sortKV d2 := by
  have hnd2 : (d2.map Prod.fst).Nodup := ((hp.map Prod.fst).nodup_iff).mp hnd
  exact List.eq_of_perm_of_sorted ((sortKV_perm d1).trans (hp.trans (sortKV_perm d2).symm))
    (sortKV_sorted_strict d1 hnd) (sortKV_sorted_strict d2 hnd2)

theorem sha256hex_length (m : List Nat) : (sha256hex m).length = 64 := by
  unfold sha256hex
  rcases sha256State m with ⟨a, b, c, d, e, f, g, h⟩
  simp [stateHex, wordHex, String.length]

theorem block_hash_perm (i : Nat) (ts p : String) (d1 d2 : List (String × JVal))
    (hperm : d1.Perm d2) (hnd : (d1.map Prod.fst).Nodup) :
    (Block.make i ts d1 p).hash = (Block.make i ts d2 p).hash := by
  show sha256hex (strBytes (blockString i ts d1 p))
      = sha256hex (strBytes (blockString i ts d2 p))
  unfold blockString dumpObj
  rw [sortKV_eq_of_perm d1 d2 hperm hnd]

/-- C5: the genesis block has index 0 and previous_hash "0"; every
appended block (credential or medical record) has index one above the
previous latest block and previous_hash equal to that block's stored
hash; every constructed block's hash is the SHA-256 hex digest (64 hex
characters, 256 bits) of the canonical key-sorted JSON encoding of its
index, timestamp, payload and previous_hash; and the digest is
independent of the payload's field-iteration order: any permutation of
a duplicate-free payload yields the same hash. -/
theorem block_structure_and_canonical_hash :
    (∀ ts : String, ∃ g : Block, Blockchain.init ts = [g] ∧ g.index = 0 ∧ g.previous_hash = "0")
    ∧ (∀ (c : List Block) (ts : String) (uid : Int) (name skill : String) (c' : List Block)
        (h : String) (latest : Block), get_latest_block c = some latest →
        add_credential c ts uid name skill = some (c', h) →
        ∃ b : Block, c' = c ++ [b] ∧ b.index = latest.index + 1
          ∧ b.previous_hash = latest.hash ∧ h = b.hash)
    ∧ (∀ (c : List Block) (ts : String) (d : List (String × JVal)) (c' : List Block)
        (d' : List (String × JVal)) (h : String) (latest : Block),
        get_latest_block c = some latest →
        add_medical_record c ts d = some (c', d', h) →
        ∃ b : Block, c' = c ++ [b] ∧ b.index = latest.index + 1
          ∧ b.previous_hash = latest.hash ∧ h = b.hash)
    ∧ (∀ (i : Nat) (ts : String) (d : List (String × JVal)) (p : String),
        (Block.make i ts d p).hash = sha256hex (strBytes (blockString i ts d p))
        ∧ (Block.make i ts d p).hash.length = 64)
    ∧ (∀ (i : Nat) (ts p : String) (d1 d2 : List (String × JVal)),
        d1.Perm d2 → (d1.map Prod.fst).Nodup →
        (Block.make i ts d1 p).hash = (Block.make i ts d2 p).hash) := by
  refine ⟨?_, ?_, ?_, ?_, ?_⟩
  · intro ts
    exact ⟨Block.make 0 ts genesisData "0", rfl, rfl, rfl⟩
  · intro c ts uid name skill c' h latest hlat hadd
    unfold get_latest_block at hlat
    unfold add_credential at hadd
    rw [hlat] at hadd
    simp only [Option.some.injEq, Prod.mk.injEq] at hadd
    obtain ⟨hc', hh⟩ := hadd
    exact ⟨_, hc'.symm, rfl, rfl, hh.symm⟩
  · intro c ts d c' d' h latest hlat hadd
    unfold get_latest_block at hlat
    unfold add_medical_record at hadd
    rw [hlat] at hadd
    simp only [Option.some.injEq, Prod.mk.injEq] at hadd
    obtain ⟨hc', _, hh⟩ := hadd
    exact ⟨_, hc'.symm, rfl, rfl, hh.symm⟩
  · intro i ts d p
    exact ⟨rfl, sha256hex_length _⟩
  · intro i ts p d1 d2 hperm hnd
    exact block_hash_perm i ts p d1 d2 hperm hnd

/-- C5 witness: the concrete two-block chain from one `add_credential`
call, and two permuted two-field payloads hashing identically. -/
theorem block_structure_and_canonical_hash_witness :
    (∃ b : Block, [gBlock0, credBlock1] = Blockchain.init "t0" ++ [b]
      ∧ b.index = gBlock0.index + 1 ∧ b.previous_hash = gBlock0.hash
      ∧ credBlock1.hash = b.hash)
    ∧ (Block.make 1 "t1" [("b", JVal.int 1), ("a", JVal.int 2)] "0").hash
        = (Block.make 1 "t1" [("a", JVal.int 2), ("b", JVal.int 1)] "0").hash :=
  ⟨block_structure_and_canonical_hash.2.1 (Blockchain.init "t0") "t1" 7 "Alice" "Cardiologist"
      [gBlock0, credBlock1] credBlock1.hash gBlock0 rfl rfl,
   block_structure_and_canonical_hash.2.2.2.2 1 "t1" "0"
      [("b", JVal.int 1), ("a", JVal.int 2)] [("a", JVal.int 2), ("b", JVal.int 1)]
      (by decide) (by decide)⟩

/-! ### C3: sign-then-verify round trip -/

theorem prime_pow_congr (r : Nat) (hr : r.Prime) (x a : Nat) (hdvd : (r - 1) ∣ a) :
    x ^ (a + 1) ≡ x [MOD r] := by
  by_cases hrx : r ∣ x
  · have h1 : x ^ (a + 1) ≡ 0 [MOD r] :=
      (Nat.modEq_zero_iff_dvd).mpr (dvd_pow hrx (Nat.succ_ne_zero a))
    have h2 : x ≡ 0 [MOD r] := (Nat.modEq_zero_iff_dvd).mpr hrx
    exact h1.trans h2.symm
  · have hco : x.Coprime r := ((Nat.Prime.coprime_iff_not_dvd hr).mpr hrx).symm
    obtain ⟨c, hc⟩ := hdvd
    have hft : x ^ (r - 1) ≡ 1 [MOD r] := by
      have he := Nat.ModEq.pow_totient hco
      rwa [Nat.totient_prime hr] at he
    calc x ^ (a + 1) = (x ^ (r - 1)) ^ c * x := by rw [hc, ← pow_mul, pow_succ]
      _ ≡ 1 ^ c * x [MOD r] := (hft.pow c).mul_right x
      _ = x := by rw [one_pow, one_mul]

theorem rsa_pow_inverse (p q e d x : Nat) (hp : p.Prime) (hq : q.Prime) (hpq : p ≠ q)
    (hed : e * d % ((p - 1) * (q - 1)) = 1) (hx : x < p * q) :
    (x ^ d % (p * q)) ^ e % (p * q) = x := by
  have h1 : (x ^ d % (p * q)) ^ e % (p * q) = x ^ (d * e) % (p * q) := by
    rw [← Nat.pow_mod, ← pow_mul]
  rw [h1]
  have hsplit : d * e = (p - 1) * (q - 1) * (d * e / ((p - 1) * (q - 1))) + 1 := by
    have hdm := Nat.div_add_mod (d * e) ((p - 1) * (q - 1))
    rw [mul_comm d e] at hdm ⊢
    omega
  set k := d * e / ((p - 1) * (q - 1)) with hk
  have hmp : x ^ (d * e) ≡ x [MOD p] := by
    rw [hsplit]
    exact prime_pow_congr p hp x _ ⟨(q - 1) * k, by ring⟩
  have hmq : x ^ (d * e) ≡ x [MOD q] := by
    rw [hsplit]
    exact prime_pow_congr q hq x _ ⟨(p - 1) * k, by ring⟩
  have hco : p.Coprime q := (Nat.coprime_primes hp hq).mpr hpq
  have hmn : x ^ (d * e) ≡ x [MOD p * q] :=
    (Nat.modEq_and_modEq_iff_modEq_mul hco).mp ⟨hmp, hmq⟩
  have h2 : x ^ (d * e) % (p * q) = x % (p * q) := hmn
  rw [h2, Nat.mod_eq_of_lt hx]

/-- C3: for every valid RSA key pair (the mathematical content of the
library's `generate_key_pair`), every salt and every message byte
string — including the empty one — verifying a fresh signature over
the unmodified message with the matching public key succeeds, for
every hash/salt width that fits below the modulus. -/
theorem sign_then_verify_roundtrip (hBits sBits p q e d salt : Nat) (m : List Nat)
    (hkey : rsaKeyValid p q e d) (hn : 2 ^ (hBits + sBits) ≤ p * q) :
    verify_signature hBits sBits (p * q) e m (sign_data hBits sBits p q d m salt) = true := by
  obtain ⟨hp, hq, hpq, hd, hed⟩ := hkey
  have hh : mHash hBits m < 2 ^ hBits := Nat.mod_lt _ (Nat.pos_pow_of_pos hBits (by omega))
  have hs : salt % 2 ^ sBits < 2 ^ sBits := Nat.mod_lt _ (Nat.pos_pow_of_pos sBits (by omega))
  have hEM : pssEncode hBits sBits m salt < p * q := by
    have hb : pssEncode hBits sBits m salt < 2 ^ (hBits + sBits) := by
      unfold pssEncode
      calc mHash hBits m * 2 ^ sBits + salt % 2 ^ sBits
          < (mHash hBits m + 1) * 2 ^ sBits := by
            rw [add_mul, one_mul]
            omega
        _ ≤ 2 ^ hBits * 2 ^ sBits := Nat.mul_le_mul_right _ hh
        _ = 2 ^ (hBits + sBits) := (pow_add 2 hBits sBits).symm
    exact lt_of_lt_of_le hb hn
  unfold verify_signature sign_data
  rw [rsa_pow_inverse p q e d _ hp hq hpq hed hEM]
  show (mHash hBits m * 2 ^ sBits + salt % 2 ^ sBits ==
      mHash hBits m * 2 ^ sBits +
        (mHash hBits m * 2 ^ sBits + salt % 2 ^ sBits) % 2 ^ sBits) = true
  have hmod : (mHash hBits m * 2 ^ sBits + salt % 2 ^ sBits) % 2 ^ sBits
      = salt % 2 ^ sBits := by
    rw [Nat.add_comm, Nat.add_mul_mod_self_right, Nat.mod_mod_of_dvd _ dvd_rfl]
  rw [hmod]
  exact beq_self_eq_true _

/-- C3 witness: the toy valid key pair `p = 23, q = 29, e = 3, d = 411`
(3 · 411 = 1233 ≡ 1 mod 22 · 28), four-bit hash and salt widths, the
empty message and salt 11. -/
theorem sign_then_verify_roundtrip_witness :
    rsaKeyValid 23 29 3 411 ∧ 2 ^ (4 + 4) ≤ 23 * 29 ∧
    verify_signature 4 4 (23 * 29) 3 [] (sign_data 4 4 23 29 411 [] 11) = true :=
  ⟨⟨by norm_num, by norm_num, by norm_num, by norm_num, by norm_num⟩, by norm_num,
   sign_then_verify_roundtrip 4 4 23 29 3 411 11 []
     ⟨by norm_num, by norm_num, by norm_num, by norm_num, by norm_num⟩ (by norm_num)⟩
